import Mathlib

/-!
Verification development for the chatgov bill-text retrieval-augmented chat
pipeline.  Each definition is a shallow embedding of a function of the
repository:

* `splitWS`, `chunkText`          — `BillTextService.chunkText` (src/services/billTextService.ts)
* `getBillContent`                — `BillTextService.getBillContent` (client fallback path;
                                    the server route in `server/routes` has identical logic)
* `getEmbeddingCacheKey`, `jsMapGet`, `jsMapSet`
                                  — the `ChatInterface` embedding cache (components/ChatInterface.tsx)
* `cosineSimilarity`, `searchSimilarChunks`, `createEmbeddings`
                                  — `EmbeddingService` (src/services/embeddingService.ts)
* `generateResponse`              — `AIService.generateResponse` (src/services/aiService.ts)

JavaScript numbers are modelled as `ℝ` for vector arithmetic and as `ℕ` for
indices, counts and millisecond timestamps.  Fallible code returns `Except`.
External collaborators (network fetch, embedding backends, the language
model) are passed in as explicit function arguments.
-/

namespace ChatGov

/-! ### Data model (src/types) -/

/-- `AIProvider` from src/types/settings.ts. -/
inductive AIProvider where
  | openai | anthropic | xai | ollama
deriving DecidableEq, Repr

/-- The `embeddingProvider` field ranges over `'openai' | 'ollama'`. -/
inductive EmbeddingProvider where
  | openai | ollama
deriving DecidableEq, Repr

/-- String tag of an embedding provider, as interpolated into cache keys. -/
def EmbeddingProvider.tag : EmbeddingProvider → String
  | .openai => "openai"
  | .ollama => "ollama"

structure ApiKeys where
  openai : String
  anthropic : String
  xai : String
deriving DecidableEq, Repr

structure OllamaConfig where
  baseUrl : String
  model : String
deriving DecidableEq, Repr

/-- `AISettings` from src/types/settings.ts. -/
structure AISettings where
  provider : AIProvider
  apiKeys : ApiKeys
  ollamaConfig : OllamaConfig
  embeddingProvider : EmbeddingProvider
  ollamaEmbeddingModel : String
  congressNumber : Nat
  useEmbeddingRelevance : Bool
deriving DecidableEq, Repr

/-- `BillChunk` from src/types/bill.ts.  The TS field `section` is a Lean
keyword, hence the escaped name. -/
structure BillChunk where
  id : String
  text : String
  startIndex : Nat
  endIndex : Nat
  «section» : Option String
  subsection : Option String
deriving DecidableEq, Repr

/-- `BillContent` from src/types/bill.ts.  `lastUpdated` is a millisecond
timestamp (`Date.getTime()`). -/
structure BillContent where
  billId : String
  fullText : String
  chunks : List BillChunk
  embeddings : List (List ℝ)
  lastUpdated : Nat

/-- `SearchResult` from src/types/bill.ts. -/
structure SearchResult where
  chunk : BillChunk
  similarity : ℝ

/-- The fields of `Bill` used by the bill-text pipeline (`congress`, `type`,
`number`); the TS field `type` is a Lean keyword, hence the escaped name. -/
structure Bill where
  congress : Nat
  «type» : String
  number : Nat
deriving DecidableEq, Repr

/-- The bill id string `congress-type-number` built at the top of
`downloadBillText` / `getBillContent`. -/
def billIdOf (bill : Bill) : String :=
  toString bill.congress ++ "-" ++ bill.type ++ "-" ++ toString bill.number

/-! ### JavaScript `String.prototype.split(/\s+/)`

`chunkText` tokenizes with `text.split(/\s+/)`.  The JS semantics: the string
is cut at every maximal run of whitespace; a leading or trailing run
contributes an empty piece, and the empty string yields `[""]` (one empty
piece), never `[]`.  `splitAux` is a single-pass state machine: the state is
`some cur` while a piece `cur` (reversed) is being accumulated, and `none`
while inside a separator run. -/

def splitAux : List Char → Option (List Char) → List (List Char)
  | [], none => [[]]
  | [], some cur => [cur.reverse]
  | c :: rest, none =>
    if c.isWhitespace then splitAux rest none else splitAux rest (some [c])
  | c :: rest, some cur =>
    if c.isWhitespace then cur.reverse :: splitAux rest none
    else splitAux rest (some (c :: cur))

/-- `text.split(/\s+/)` (JS `\s` modelled by `Char.isWhitespace`). -/
def splitWS (s : String) : List String :=
  (splitAux s.data (some [])).map fun l => ⟨l⟩

/-- `Array.prototype.join(' ')`. -/
def joinSpace : List String → String
  | [] => ""
  | [w] => w
  | w :: ws => w ++ " " ++ joinSpace ws

/-! ### The section-header pattern

`chunkText` runs `chunkText.match(/SECTION\s+(\d+)\.\s+([^.]+)/i)` on each
chunk.  `matchSectionAt` attempts the pattern at the head of a character
list (`\s+` and `\d+` are matched greedily; the only backtracking the
pattern needs is between the final `\s+` and `([^.]+)`: when nothing
follows the whitespace run, the regex engine gives one whitespace character
back to `[^.]+`, which requires the run to have length at least two).
`findSection` scans for the leftmost match, as `String.prototype.match`
does. -/

def matchLitCI : List Char → List Char → Option (List Char)
  | [], rest => some rest
  | _ :: _, [] => none
  | p :: ps, c :: cs => if p.toLower == c.toLower then matchLitCI ps cs else none

def matchSectionAt (l : List Char) : Option (String × String) :=
  match matchLitCI "SECTION".data l with
  | none => none
  | some r1 =>
    let ws1 := r1.takeWhile Char.isWhitespace
    let r2 := r1.dropWhile Char.isWhitespace
    if ws1.isEmpty then none else
    let ds := r2.takeWhile Char.isDigit
    let r3 := r2.dropWhile Char.isDigit
    if ds.isEmpty then none else
    match r3 with
    | '.' :: r4 =>
      let ws2 := r4.takeWhile Char.isWhitespace
      let r5 := r4.dropWhile Char.isWhitespace
      if ws2.isEmpty then none else
      let body := r5.takeWhile fun c => c != '.'
      if !body.isEmpty then some (⟨ds⟩, ⟨body⟩)
      else if 2 ≤ ws2.length then some (⟨ds⟩, ⟨[' ']⟩)
      else none
    | _ => none

def findSection : List Char → Option (String × String)
  | [] => none
  | c :: rest =>
    match matchSectionAt (c :: rest) with
    | some m => some m
    | none => findSection rest

/-! ### `BillTextService.chunkText`

The `while (currentIndex < words.length)` loop.  Each iteration slices
`words[currentIndex : min (currentIndex + chunkSize) words.length]`, joins
it with spaces, pushes a chunk, advances
`currentIndex = max (currentIndex + chunkSize - overlap) (currentIndex + 1)`
and breaks once `endIndex >= words.length`.  Sizes are word counts, so
`chunkSize`/`overlap` are `ℕ` (JS `currentIndex + chunkSize - overlap` can
go negative, but then `Math.max` selects `currentIndex + 1`, which truncated
subtraction reproduces). -/

def chunkLoop (words : List String) (chunkSize overlap : Nat) (currentIndex chunkId : Nat) :
    List BillChunk :=
  if h : currentIndex < words.length then
    let endIndex := min (currentIndex + chunkSize) words.length
    let chunkWords := (words.drop currentIndex).take (endIndex - currentIndex)
    let text := joinSpace chunkWords
    let sectionMatch := findSection text.data
    let c : BillChunk :=
      { id := "chunk-" ++ toString chunkId
        text := text
        startIndex := currentIndex
        endIndex := endIndex
        «section» := sectionMatch.map fun m => "Section " ++ m.1
        subsection := sectionMatch.map fun m => m.2.trim }
    if words.length ≤ endIndex then [c]
    else c :: chunkLoop words chunkSize overlap
      (max (currentIndex + chunkSize - overlap) (currentIndex + 1)) (chunkId + 1)
  else []
termination_by words.length - currentIndex
decreasing_by
  have h1 : currentIndex + 1 ≤ max (currentIndex + chunkSize - overlap) (currentIndex + 1) :=
    le_max_right _ _
  omega

/-- `BillTextService.chunkText(text, chunkSize = 1000, overlap = 200)`. -/
def chunkText (text : String) (chunkSize : Nat := 1000) (overlap : Nat := 200) :
    List BillChunk :=
  chunkLoop (splitWS text) chunkSize overlap 0 0

/-! ### JavaScript `Map` (as used by the two in-memory caches)

Modelled as an insertion-ordered association list.  `Map.set` overwrites an
existing binding in place, otherwise appends; `Map.get` returns the value of
the first (unique) binding. -/

def jsMapGet (m : List (String × α)) (k : String) : Option α :=
  (m.find? fun p => p.1 == k).map Prod.snd

def jsMapSet (m : List (String × α)) (k : String) (v : α) : List (String × α) :=
  if (m.find? fun p => p.1 == k).isSome then
    m.map fun p => if p.1 == k then (k, v) else p
  else m ++ [(k, v)]

/-! ### The `ChatInterface` embedding cache key

`getEmbeddingCacheKey` in components/ChatInterface.tsx:
`billId + "-" + embeddingProvider + "-" + (ollamaEmbeddingModel || 'default')`
(JS `||` on a string falls back exactly when the string is empty). -/

def getEmbeddingCacheKey (settings : AISettings) (billId : String) : String :=
  let embeddingKey := settings.embeddingProvider.tag ++ "-" ++
    (if settings.ollamaEmbeddingModel = "" then "default" else settings.ollamaEmbeddingModel)
  billId ++ "-" ++ embeddingKey

/-! ### `BillTextService.getBillContent`

The client-side bill content cache (keyed by `billId` alone, 1-hour TTL).
External collaborators are passed explicitly: `serverResponse` is the parsed
body of a successful `POST /api/bills/content` (or `none` when the request
fails), and `downloadedText` is the full text `downloadBillText` would
produce on the fallback path.  `now` is `Date.now()` in milliseconds.  The
server-side `ServerBillTextService.getBillContent` is this same logic with
`serverResponse = none`. -/

def getBillContent (serverResponse : Option BillContent) (downloadedText : String)
    (now : Nat) (cache : List (String × BillContent)) (bill : Bill) :
    BillContent × List (String × BillContent) :=
  let billId := billIdOf bill
  let fetchPath : BillContent × List (String × BillContent) :=
    match serverResponse with
    | some bc => (bc, jsMapSet cache billId bc)
    | none =>
      let fullText := downloadedText
      let chunks := chunkText fullText
      let bc : BillContent :=
        { billId := billId, fullText := fullText, chunks := chunks
          embeddings := []  -- "Will be filled by embedding service"
          lastUpdated := now }
      (bc, jsMapSet cache billId bc)
  match jsMapGet cache billId with
  | some cached =>
    if now - cached.lastUpdated < 60 * 60 * 1000 then (cached, cache) else fetchPath
  | none => fetchPath

/-! ### `EmbeddingService.cosineSimilarity` -/

/-- `EmbeddingService.cosineSimilarity(a, b)`.  The accumulation loop computes
the dot product and the two squared norms; the guard `normA === 0 ||
normB === 0` returns `0` before the division is reached; a length mismatch
throws. -/
noncomputable def cosineSimilarity (a b : List ℝ) : Except String ℝ :=
  if a.length ≠ b.length then .error "Vectors must have the same length"
  else
    let dotProduct := ((a.zip b).map fun p => p.1 * p.2).sum
    let normA := (a.map fun x => x * x).sum
    let normB := (b.map fun x => x * x).sum
    if normA = 0 ∨ normB = 0 then .ok 0
    else .ok (dotProduct / (Real.sqrt normA * Real.sqrt normB))

/-- The squared norm accumulated by the `cosineSimilarity` loop. -/
def sumSq (a : List ℝ) : ℝ := (a.map fun x => x * x).sum

/-- The dot product accumulated by the `cosineSimilarity` loop. -/
def dotList (a b : List ℝ) : ℝ := ((a.zip b).map fun p => p.1 * p.2).sum

/-! ### `EmbeddingService.searchSimilarChunks`

The query embedding is produced by the external embedding backend (with a
per-`(provider, query)` memo); it enters the model as the `queryEmbedding`
argument.  The similarity pass maps each embedding, paired with its index,
to `{chunk: chunks[index], similarity}`; a thrown `cosineSimilarity` error
is re-thrown by the surrounding catch with the `Failed to search` prefix. -/

/-- The value JS would read from an out-of-range `chunks[index]`; unreachable
whenever `embeddings` and `chunks` are parallel. -/
def undefinedChunk : BillChunk := ⟨"", "", 0, 0, none, none⟩

def mapExcept (f : α → Except ε β) : List α → Except ε (List β)
  | [] => .ok []
  | a :: as =>
    match f a with
    | .error e => .error e
    | .ok b =>
      match mapExcept f as with
      | .error e => .error e
      | .ok bs => .ok (b :: bs)

noncomputable def simList (queryEmbedding : List ℝ) (content : BillContent) :
    Except String (List SearchResult) :=
  mapExcept
    (fun p => (cosineSimilarity queryEmbedding p.2).map
      fun s => ⟨content.chunks.getD p.1 undefinedChunk, s⟩)
    content.embeddings.enum

/-- The comparator `(a, b) => b.similarity - a.similarity`: `a` precedes `b`
when `b.similarity ≤ a.similarity`. -/
def simDesc (a b : SearchResult) : Prop := b.similarity ≤ a.similarity

noncomputable instance : DecidableRel simDesc := fun _ _ => Real.decidableLE _ _

/-- `similarities.sort((a, b) => b.similarity - a.similarity)`.  ECMAScript
2019 requires `Array.prototype.sort` to be stable, so the call is modelled
by a stable sort (insertion sort) under the comparator's order. -/
noncomputable def sortSearchResults (l : List SearchResult) : List SearchResult :=
  l.insertionSort simDesc

noncomputable def searchSimilarChunks (queryEmbedding : List ℝ) (content : BillContent)
    (topK : Nat := 3) : Except String (List SearchResult) :=
  if content.embeddings.length = 0 then
    .error "Failed to search bill content: Bill content has no embeddings"
  else
    match simList queryEmbedding content with
    | .error msg => .error ("Failed to search bill content: " ++ msg)
    | .ok similarities => .ok ((sortSearchResults similarities).take topK)

/-! ### `EmbeddingService.createEmbeddings`

`embedDocuments` is the external embedding backend
(`model.embedDocuments(batch)`), fallible.  The batch loop takes
`texts.slice(i, i + batchSize)` for `i = 0, batchSize, 2*batchSize, ...` and
appends each batch's vectors to the running result; a batch failure is
re-thrown and wrapped by the outer catch.  The pacing `setTimeout` between
batches has no effect on the produced value and is not modelled. -/

/-- `const batchSize = embeddingProvider === 'ollama' ? 5 : 10`. -/
def batchSizeOf (settings : AISettings) : Nat :=
  if settings.embeddingProvider = .ollama then 5 else 10

def embedBatches (embedDocuments : List String → Except String (List (List ℝ)))
    (batchSize : Nat) : List String → Except String (List (List ℝ))
  | [] => .ok []
  | t :: ts =>
    match embedDocuments ((t :: ts).take batchSize) with
    | .error e => .error e
    | .ok batchEmbeddings =>
      -- the next loop index skips the batch just embedded:
      -- `(t :: ts).drop batchSize`, written on `ts` for the positive batch
      -- sizes (5 and 10) the service uses
      match embedBatches embedDocuments batchSize (ts.drop (batchSize - 1)) with
      | .error e => .error e
      | .ok rest => .ok (batchEmbeddings ++ rest)
termination_by l => l.length
decreasing_by
  have := List.length_drop (batchSize - 1) ts
  simp only [List.length_cons]
  omega

def createEmbeddings (settings : AISettings)
    (embedDocuments : List String → Except String (List (List ℝ)))
    (billContent : BillContent) : Except String BillContent :=
  -- `getEmbeddingModel()` throws before any batch when the hosted backend
  -- has no credential
  if settings.embeddingProvider = .openai ∧ settings.apiKeys.openai = "" then
    .error "Failed to create embeddings for bill content: OpenAI API key is required for embeddings"
  else
    let texts := billContent.chunks.map fun c => c.text
    match embedBatches embedDocuments (batchSizeOf settings) texts with
    | .error msg => .error ("Failed to create embeddings for bill content: " ++ msg)
    | .ok embeddings => .ok { billContent with embeddings := embeddings }

/-! ### `AIService.generateResponse` (src/services/aiService.ts)

A thrown JavaScript value is either an `Error` carrying a message or some
other value (`error instanceof Error` fails); the model invocation
(`model.invoke`) is the external language-model adapter, passed in as a
function producing either response text or a thrown value. -/

inductive JsThrown where
  | jsError (message : String)
  | nonError
deriving DecidableEq, Repr

/-- `String.prototype.includes`: `startsWithChars pat l` holds when `pat`
begins `l`; `containsAt` scans every start position. -/
def startsWithChars : List Char → List Char → Bool
  | [], _ => true
  | _ :: _, [] => false
  | p :: ps, c :: cs => p == c && startsWithChars ps cs

def containsAt : List Char → List Char → Bool
  | pat, [] => startsWithChars pat []
  | pat, c :: cs => startsWithChars pat (c :: cs) || containsAt pat cs

def includesStr (s pat : String) : Bool := containsAt pat.data s.data

/-- The message of the `Error` thrown by `getModel()` when the selected
provider's credential is missing (`!apiKeys.<provider>`); `none` when
`getModel()` succeeds.  The Ollama variant never requires a credential. -/
def missingCredential (settings : AISettings) : Option String :=
  match settings.provider with
  | .openai => if settings.apiKeys.openai = "" then some "OpenAI API key is required" else none
  | .anthropic =>
    if settings.apiKeys.anthropic = "" then some "Anthropic API key is required" else none
  | .xai => if settings.apiKeys.xai = "" then some "xAI API key is required" else none
  | .ollama => none

/-- Decimal rendering of `similarity.toFixed(3)` (round half away from
zero at the third decimal; exact ties of binary floats are immaterial to
the claims, which never inspect the digits). -/
noncomputable def toFixed3 (x : ℝ) : String :=
  let n : ℤ := ⌊x * 1000 + 1 / 2⌋
  let sign := if n < 0 then "-" else ""
  let m := n.natAbs
  let frac := m % 1000
  let fracDigits :=
    if frac < 10 then "00" ++ toString frac
    else if frac < 100 then "0" ++ toString frac
    else toString frac
  sign ++ toString (m / 1000) ++ "." ++ fracDigits

/-- `Array.prototype.join(sep)`. -/
def joinSep (sep : String) : List String → String
  | [] => ""
  | [w] => w
  | w :: ws => w ++ sep ++ joinSep sep ws

/-- The per-chunk rendering inside the relevant-sections block:
`[Section <index+1><optional - section> - Similarity: <toFixed(3)>]:\n<text>`. -/
noncomputable def renderChunk (indexed : Nat × SearchResult) : String :=
  let sectionPart :=
    match indexed.2.chunk.«section» with
    | some s => if s = "" then "" else " - " ++ s
    | none => ""
  "[Section " ++ toString (indexed.1 + 1) ++ sectionPart ++ " - Similarity: " ++
    toFixed3 indexed.2.similarity ++ "]:\n" ++ indexed.2.chunk.text

/-- The prompt `generateResponse` sends to the model.  The verbatim branch is
`prompt = userMessage`, overridden when `billContext || relevantChunks` is
truthy: an absent or empty `billContext` string is falsy, while any supplied
`relevantChunks` array is truthy, including the empty array. -/
noncomputable def promptFor (billContext : Option String)
    (relevantChunks : Option (List SearchResult)) (userMessage : String) : String :=
  let ctxTruthy : Bool := match billContext with | some s => s != "" | none => false
  let chunksTruthy : Bool := relevantChunks.isSome
  if ctxTruthy || chunksTruthy then
    let contextParts : List String :=
      (match billContext with
       | some s => if s != "" then ["Bill Overview:\n" ++ s] else []
       | none => []) ++
      (match relevantChunks with
       | some rc =>
         if 0 < rc.length then
           ["Relevant sections from the bill text:\n" ++
             joinSep "\n\n" (rc.enum.map renderChunk)]
         else []
       | none => [])
    "You are an AI assistant helping users understand US legislation. You have access to both bill metadata and the full text content.\n\n"
      ++ joinSep "\n\n" contextParts
      ++ "\n\nUser question: " ++ userMessage
      ++ "\n\nPlease provide a helpful, accurate response about this bill. Use the provided bill text sections to give specific, detailed answers. When referencing information from the bill, quote the relevant parts and explain them clearly. Focus on answering the user's specific question with evidence from the actual bill text."
  else userMessage

/-- The catch block of `generateResponse`: every thrown value is converted to
a human-readable string; the branches test the `Error` message for
`'API key'`, then `'ECONNREFUSED'`/`'network'`. -/
def catchHandler : JsThrown → String
  | .jsError msg =>
    if includesStr msg "API key" then
      "Error: " ++ msg ++ ". Please check your API key in settings."
    else if includesStr msg "ECONNREFUSED" || includesStr msg "network" then
      "Error: Unable to connect to the AI service. Please check your connection and try again."
    else "Error: " ++ msg
  | .nonError => "Sorry, I encountered an error. Please try again or check your settings."

/-- `AIService.generateResponse(userMessage, billContext?, relevantChunks?,
billId?)`.  `invokeModel` is the external language-model adapter
(`model.invoke` returning `response.content`); the `billId` argument only
feeds logging and does not affect the produced string.  `getModel()` runs
before the prompt is built, so a missing credential short-circuits to the
catch block without consulting `invokeModel`. -/
noncomputable def generateResponse (settings : AISettings)
    (invokeModel : String → Except JsThrown String) (userMessage : String)
    (billContext : Option String) (relevantChunks : Option (List SearchResult)) : String :=
  match missingCredential settings with
  | some msg => catchHandler (.jsError msg)
  | none =>
    match invokeModel (promptFor billContext relevantChunks userMessage) with
    | .ok responseText => responseText
    | .error e => catchHandler e

/-! ## Library lemmas about the embedded definitions -/

theorem jsMapGet_map_replace (m : List (String × α)) (k : String) (v : α)
    (hfound : (m.find? fun p => p.1 == k).isSome) :
    jsMapGet (m.map fun p => if p.1 == k then (k, v) else p) k = some v := by
  induction m with
  | nil => simp [List.find?] at hfound
  | cons p m ih =>
    by_cases hp : p.1 == k
    · simp [jsMapGet, List.find?, hp]
    · rw [List.find?_cons_of_neg _ (by simpa using hp)] at hfound
      have := ih hfound
      simpa [jsMapGet, List.find?, hp] using this

theorem jsMapGet_append_single (m : List (String × α)) (k : String) (v : α)
    (hnone : (m.find? fun p => p.1 == k) = none) :
    jsMapGet (m ++ [(k, v)]) k = some v := by
  simp [jsMapGet, List.find?_append, hnone]

/-- `Map.set(k, v)` followed by `Map.get(k)` yields `v`. -/
theorem jsMapGet_set_self (m : List (String × α)) (k : String) (v : α) :
    jsMapGet (jsMapSet m k v) k = some v := by
  unfold jsMapSet
  split
  case isTrue hfound => exact jsMapGet_map_replace m k v hfound
  case isFalse hnone =>
    exact jsMapGet_append_single m k v (Option.not_isSome_iff_eq_none.mp hnone)

/-- Reading a key other than the single stored one misses. -/
theorem jsMapGet_single_ne (k1 k2 : String) (v : α) (h : k1 ≠ k2) :
    jsMapGet (jsMapSet [] k1 v) k2 = none := by
  have hb : (k1 == k2) = false := beq_eq_false_iff_ne.mpr h
  simp [jsMapGet, jsMapSet, List.find?, hb]

/-- Cache keys for the same bill under different embedding providers differ:
the provider tag occupies a fixed-width slot right after `billId ++ "-"`. -/
theorem getEmbeddingCacheKey_ne (s1 s2 : AISettings) (billId : String)
    (h : s1.embeddingProvider ≠ s2.embeddingProvider) :
    getEmbeddingCacheKey s1 billId ≠ getEmbeddingCacheKey s2 billId := by
  intro heq
  have hd := congrArg String.data heq
  unfold getEmbeddingCacheKey at hd
  dsimp only at hd
  simp only [String.data_append, List.append_assoc] at hd
  cases h1 : s1.embeddingProvider <;> cases h2 : s2.embeddingProvider <;>
      rw [h1, h2] at hd
  case openai.openai => exact h (h1.trans h2.symm)
  case ollama.ollama => exact h (h1.trans h2.symm)
  case openai.ollama =>
    simp only [EmbeddingProvider.tag] at hd
    have hd2 := List.append_cancel_left (List.append_cancel_left hd)
    exact absurd (List.append_inj hd2 (by decide)).1 (by decide)
  case ollama.openai =>
    simp only [EmbeddingProvider.tag] at hd
    have hd2 := List.append_cancel_left (List.append_cancel_left hd)
    exact absurd (List.append_inj hd2 (by decide)).1 (by decide)

/-- Every chunk the loop produces starts at or after the loop's current
index. -/
theorem chunkLoop_start_ge (words : List String) (cs ov ci id : Nat) :
    ∀ c ∈ chunkLoop words cs ov ci id, ci ≤ c.startIndex := by
  intro c hc
  rw [chunkLoop] at hc
  split at hc
  case isTrue h =>
    dsimp only at hc
    split at hc
    · rw [List.mem_singleton] at hc
      subst hc
      exact le_refl _
    · rcases List.mem_cons.mp hc with rfl | hmem
      · exact le_refl _
      · have h2 := chunkLoop_start_ge words cs ov
          (max (ci + cs - ov) (ci + 1)) (id + 1) c hmem
        omega
  case isFalse h => simp at hc
termination_by words.length - ci
decreasing_by omega

/-- The `startIndex` sequence the loop produces is non-decreasing. -/
theorem chunkLoop_sorted (words : List String) (cs ov ci id : Nat) :
    ((chunkLoop words cs ov ci id).map BillChunk.startIndex).Pairwise (· ≤ ·) := by
  rw [chunkLoop]
  split
  case isTrue h =>
    dsimp only
    split
    · simp
    · rw [List.map_cons, List.pairwise_cons]
      refine ⟨?_, chunkLoop_sorted words cs ov (max (ci + cs - ov) (ci + 1)) (id + 1)⟩
      intro b hb
      simp only [List.mem_map] at hb
      obtain ⟨c, hc, rfl⟩ := hb
      have := chunkLoop_start_ge words cs ov (max (ci + cs - ov) (ci + 1)) (id + 1) c hc
      simp only
      omega
  case isFalse h => simp
termination_by words.length - ci
decreasing_by omega

/-- With a positive window size, the word ranges of the produced chunks cover
every word index from the loop's current index to the end. -/
theorem chunkLoop_cover (words : List String) (cs ov ci id : Nat) (hcs : 1 ≤ cs) :
    ∀ i, ci ≤ i → i < words.length →
      ∃ c ∈ chunkLoop words cs ov ci id, c.startIndex ≤ i ∧ i < c.endIndex := by
  intro i h1 h2
  rw [chunkLoop]
  have h : ci < words.length := lt_of_le_of_lt h1 h2
  rw [dif_pos h]
  dsimp only
  by_cases hend : words.length ≤ min (ci + cs) words.length
  · rw [if_pos hend]
    exact ⟨_, List.mem_singleton.mpr rfl, h1, by simp only; omega⟩
  · rw [if_neg hend]
    by_cases hin : i < min (ci + cs) words.length
    · exact ⟨_, List.mem_cons_self _ _, h1, hin⟩
    · have hadv : max (ci + cs - ov) (ci + 1) ≤ i := by omega
      obtain ⟨c, hc, hc1, hc2⟩ := chunkLoop_cover words cs ov
        (max (ci + cs - ov) (ci + 1)) (id + 1) hcs i hadv h2
      exact ⟨c, List.mem_cons_of_mem _ hc, hc1, hc2⟩
termination_by words.length - ci
decreasing_by omega

/-- The loop runs at most once per remaining word: every iteration advances
the window start by at least one word. -/
theorem chunkLoop_length_le (words : List String) (cs ov ci id : Nat) :
    (chunkLoop words cs ov ci id).length ≤ words.length - ci := by
  rw [chunkLoop]
  split
  case isTrue h =>
    dsimp only
    split
    · simp only [List.length_singleton]
      omega
    · rw [List.length_cons]
      have := chunkLoop_length_le words cs ov (max (ci + cs - ov) (ci + 1)) (id + 1)
      omega
  case isFalse h => simp
termination_by words.length - ci
decreasing_by omega

/-- The first chunk the loop produces (if any) starts at the current index. -/
theorem chunkLoop_head_start (words : List String) (cs ov ci id : Nat) :
    ∀ b ∈ (chunkLoop words cs ov ci id).head?, b.startIndex = ci := by
  intro b hb
  rw [chunkLoop] at hb
  split at hb
  case isTrue h =>
    dsimp only at hb
    split at hb <;> · rw [List.head?_cons, Option.mem_some_iff] at hb; subst hb; rfl
  case isFalse h => simp at hb

/-- Consecutive chunks advance the window start by exactly
`max (chunkSize - overlap) 1` words. -/
theorem chunkLoop_chain (words : List String) (cs ov ci id : Nat) :
    List.Chain' (fun a b => b.startIndex = a.startIndex + max (cs - ov) 1)
      (chunkLoop words cs ov ci id) := by
  rw [chunkLoop]
  split
  case isTrue h =>
    dsimp only
    split
    · simp
    · refine List.chain'_cons'.mpr
        ⟨?_, chunkLoop_chain words cs ov (max (ci + cs - ov) (ci + 1)) (id + 1)⟩
      intro b hb
      have := chunkLoop_head_start words cs ov (max (ci + cs - ov) (ci + 1)) (id + 1) b hb
      simp only
      omega
  case isFalse h => simp
termination_by words.length - ci
decreasing_by omega

/-! ## The claims -/

/-- Claim C1: the embedding cache key is computed from the bill identity
together with the embedding provider and the embedding model name, so when
`AISettings.embeddingProvider` changes between two cache accesses for the
same bill, the two accesses use different keys and the second access does
not return the entry (with its vectors) stored under the first provider's
key. -/
theorem claim_C1_cache_key_includes_provider (s1 s2 : AISettings) (billId : String)
    (v : BillContent) (h : s1.embeddingProvider ≠ s2.embeddingProvider) :
    getEmbeddingCacheKey s1 billId ≠ getEmbeddingCacheKey s2 billId ∧
    jsMapGet (jsMapSet [] (getEmbeddingCacheKey s1 billId) v)
      (getEmbeddingCacheKey s2 billId) = none :=
  ⟨getEmbeddingCacheKey_ne s1 s2 billId h,
    jsMapGet_single_ne _ _ _ (getEmbeddingCacheKey_ne s1 s2 billId h)⟩

/-- Witness for C1 at concrete settings differing only in embedding
provider. -/
theorem claim_C1_witness :
    getEmbeddingCacheKey
        ⟨.openai, ⟨"sk-1", "", ""⟩, ⟨"http://localhost:11434", "llama3"⟩, .openai,
          "nomic-embed-text", 118, true⟩ "119-HR-1" ≠
      getEmbeddingCacheKey
        ⟨.openai, ⟨"sk-1", "", ""⟩, ⟨"http://localhost:11434", "llama3"⟩, .ollama,
          "nomic-embed-text", 118, true⟩ "119-HR-1" ∧
    jsMapGet
      (jsMapSet []
        (getEmbeddingCacheKey
          ⟨.openai, ⟨"sk-1", "", ""⟩, ⟨"http://localhost:11434", "llama3"⟩, .openai,
            "nomic-embed-text", 118, true⟩ "119-HR-1")
        (⟨"119-HR-1", "", [], [], 0⟩ : BillContent))
      (getEmbeddingCacheKey
        ⟨.openai, ⟨"sk-1", "", ""⟩, ⟨"http://localhost:11434", "llama3"⟩, .ollama,
          "nomic-embed-text", 118, true⟩ "119-HR-1") = none :=
  claim_C1_cache_key_includes_provider _ _ "119-HR-1" ⟨"119-HR-1", "", [], [], 0⟩
    (by decide)

/-- Claim C2 counterexample: on a cache miss (empty cache) with the server
collaborator unreachable, `getBillContent` stores and returns a
`BillContent` whose `embeddings` sequence is empty even though its `chunks`
sequence is not — the stored entry is not "already embedded", refuting the
claim that the embeddings parallel the chunks at storage time. -/
theorem claim_C2_counterexample :
    (getBillContent none "alpha beta" 1000 [] ⟨119, "HR", 1⟩).1.embeddings = [] ∧
    (getBillContent none "alpha beta" 1000 [] ⟨119, "HR", 1⟩).1.chunks ≠ [] := by
  refine ⟨rfl, ?_⟩
  rw [getBillContent]
  simp only [jsMapGet, List.find?_nil, Option.map_none]
  rw [chunkText, chunkLoop]
  decide

/-- Claim C2 (amended): on a cache miss (no live entry younger than the
TTL), `getBillContent` fetches the full text, chunks it, and the
`BillContent` it stores under the key and returns has `lastUpdated = now`
and an empty `embeddings` sequence — embedding is performed afterwards by
the embedding service, not by the cache fill. -/
theorem claim_C2_amended (downloadedText : String) (now : Nat)
    (cache : List (String × BillContent)) (bill : Bill)
    (hmiss : ∀ cached, jsMapGet cache (billIdOf bill) = some cached →
      60 * 60 * 1000 ≤ now - cached.lastUpdated) :
    (getBillContent none downloadedText now cache bill).1.lastUpdated = now ∧
    (getBillContent none downloadedText now cache bill).1.fullText = downloadedText ∧
    (getBillContent none downloadedText now cache bill).1.chunks =
      chunkText downloadedText ∧
    (getBillContent none downloadedText now cache bill).1.embeddings = [] ∧
    (getBillContent none downloadedText now cache bill).1.billId = billIdOf bill ∧
    jsMapGet (getBillContent none downloadedText now cache bill).2 (billIdOf bill) =
      some (getBillContent none downloadedText now cache bill).1 := by
  unfold getBillContent
  dsimp only
  cases hget : jsMapGet cache (billIdOf bill) with
  | none =>
    exact ⟨rfl, rfl, rfl, rfl, rfl, jsMapGet_set_self cache (billIdOf bill) _⟩
  | some cached =>
    have hstale := hmiss cached hget
    dsimp only
    rw [if_neg (by omega)]
    exact ⟨rfl, rfl, rfl, rfl, rfl, jsMapGet_set_self cache (billIdOf bill) _⟩

/-- Witness for C2 (amended) on an empty cache. -/
theorem claim_C2_amended_witness :
    (getBillContent none "alpha beta" 1000 [] ⟨119, "HR", 1⟩).1.lastUpdated = 1000 ∧
    (getBillContent none "alpha beta" 1000 [] ⟨119, "HR", 1⟩).1.fullText = "alpha beta" ∧
    (getBillContent none "alpha beta" 1000 [] ⟨119, "HR", 1⟩).1.chunks =
      chunkText "alpha beta" ∧
    (getBillContent none "alpha beta" 1000 [] ⟨119, "HR", 1⟩).1.embeddings = [] ∧
    (getBillContent none "alpha beta" 1000 [] ⟨119, "HR", 1⟩).1.billId =
      billIdOf ⟨119, "HR", 1⟩ ∧
    jsMapGet (getBillContent none "alpha beta" 1000 [] ⟨119, "HR", 1⟩).2
      (billIdOf ⟨119, "HR", 1⟩) =
      some (getBillContent none "alpha beta" 1000 [] ⟨119, "HR", 1⟩).1 :=
  claim_C2_amended "alpha beta" 1000 [] ⟨119, "HR", 1⟩
    (fun cached hc => by simp [jsMapGet] at hc)

/-- Claim C3 counterexample: `chunkText ""` is not the empty chunk sequence.
JavaScript's `"".split(/\s+/)` is `[""]` — a one-element word list — so the
loop body runs once and produces one chunk. -/
theorem claim_C3_counterexample : chunkText "" 1000 200 ≠ [] := by
  rw [chunkText, chunkLoop]
  decide

/-- Claim C3 (amended): on the empty string the tokenized word list is
`[""]`, the loop executes exactly once, and `chunkText ""` returns a single
chunk with empty text, word range `[0, 1)` and no section tags. -/
theorem claim_C3_amended :
    splitWS "" = [""] ∧
    chunkText "" 1000 200 = [⟨"chunk-0", "", 0, 1, none, none⟩] :=
  ⟨rfl, by rw [chunkText, chunkLoop]; decide⟩

/-- Claim C4: for every input text, every `chunkSize ≥ 1` and every
`overlap`, the chunk sequence has a non-decreasing `startIndex` sequence and
the word ranges `[startIndex, endIndex)` of the chunks cover every word
index of the tokenized source at least once. -/
theorem claim_C4_monotone_and_covering (text : String) (chunkSize overlap : Nat)
    (hcs : 1 ≤ chunkSize) :
    ((chunkText text chunkSize overlap).map BillChunk.startIndex).Pairwise (· ≤ ·) ∧
    ∀ i < (splitWS text).length, ∃ c ∈ chunkText text chunkSize overlap,
      c.startIndex ≤ i ∧ i < c.endIndex :=
  ⟨chunkLoop_sorted (splitWS text) chunkSize overlap 0 0,
    fun i hi => chunkLoop_cover (splitWS text) chunkSize overlap 0 0 hcs i
      (Nat.zero_le i) hi⟩

/-- Witness for C4 with `chunkSize = 2`, `overlap = 1` on a 3-word text. -/
theorem claim_C4_witness :
    1 ≤ 2 ∧
    ((((chunkText "a b c" 2 1).map BillChunk.startIndex).Pairwise (· ≤ ·)) ∧
      ∀ i < (splitWS "a b c").length, ∃ c ∈ chunkText "a b c" 2 1,
        c.startIndex ≤ i ∧ i < c.endIndex) :=
  ⟨by decide, claim_C4_monotone_and_covering "a b c" 2 1 (by decide)⟩

/-- Claim C5: `chunkText` terminates on every input for every `chunkSize`
and `overlap`, including `overlap ≥ chunkSize`: every iteration advances the
window start by exactly `max (chunkSize - overlap) 1 ≥ 1` words, so the loop
runs at most once per tokenized word and the chunk list is no longer than
the word list. -/
theorem claim_C5_terminating_advance (text : String) (chunkSize overlap : Nat) :
    (chunkText text chunkSize overlap).length ≤ (splitWS text).length ∧
    List.Chain' (fun a b => b.startIndex = a.startIndex + max (chunkSize - overlap) 1)
      (chunkText text chunkSize overlap) :=
  ⟨le_trans (chunkLoop_length_le (splitWS text) chunkSize overlap 0 0) (by omega),
    chunkLoop_chain (splitWS text) chunkSize overlap 0 0⟩

/-- Claim C9: for equal-length vectors, `cosineSimilarity` returns exactly
`0` whenever either squared norm is zero (in particular against a zero
vector) and never raises a division error; otherwise it returns
`dot(a,b) / (‖a‖ * ‖b‖)`. -/
theorem claim_C9_cosine_zero_norm_guard (a b : List ℝ) (h : a.length = b.length) :
    ((sumSq a = 0 ∨ sumSq b = 0) → cosineSimilarity a b = .ok 0) ∧
    (sumSq a ≠ 0 → sumSq b ≠ 0 →
      cosineSimilarity a b =
        .ok (dotList a b / (Real.sqrt (sumSq a) * Real.sqrt (sumSq b)))) ∧
    ∃ r, cosineSimilarity a b = .ok r := by
  have hlen : ¬a.length ≠ b.length := fun hne => hne h
  unfold cosineSimilarity
  rw [if_neg hlen]
  dsimp only
  rw [show (a.map fun x => x * x).sum = sumSq a from rfl,
    show (b.map fun x => x * x).sum = sumSq b from rfl,
    show ((a.zip b).map fun p => p.1 * p.2).sum = dotList a b from rfl]
  refine ⟨fun h0 => by rw [if_pos h0], fun h1 h2 => ?_, ?_⟩
  · rw [if_neg (by tauto)]
  · by_cases hz : sumSq a = 0 ∨ sumSq b = 0
    · rw [if_pos hz]; exact ⟨0, rfl⟩
    · rw [if_neg hz]; exact ⟨_, rfl⟩

/-- Witness for C9: the zero vector against `[3]`. -/
theorem claim_C9_witness : cosineSimilarity [(0 : ℝ)] [(3 : ℝ)] = .ok 0 :=
  (claim_C9_cosine_zero_norm_guard [(0 : ℝ)] [(3 : ℝ)] rfl).1
    (Or.inl (by simp [sumSq]))

/-- An elementwise (order-preserving, one-vector-per-text) embedding backend
makes the batched loop equal to a single map over all texts: the batch
results concatenate, in batch order, to one vector per input text. -/
theorem embedBatches_map (g : String → List ℝ) (batchSize : Nat) (hbs : 1 ≤ batchSize) :
    ∀ texts : List String,
      embedBatches (fun l => .ok (l.map g)) batchSize texts = .ok (texts.map g)
  | [] => by rw [embedBatches]; rfl
  | t :: ts => by
    rw [embedBatches]
    dsimp only
    rw [embedBatches_map g batchSize hbs (ts.drop (batchSize - 1))]
    dsimp only
    rw [show batchSize = (batchSize - 1) + 1 from by omega]
    rw [List.take_succ_cons, Nat.add_sub_cancel, ← List.map_append, List.cons_append,
      List.take_append_drop]
termination_by texts => texts.length
decreasing_by
  have := List.length_drop (batchSize - 1) ts
  simp only [List.length_cons]
  omega

/-- Claim C7: with an embedding backend satisfying the order-preserving
one-vector-per-text contract, `createEmbeddings` succeeds with exactly one
embedding per chunk, in chunk order (`embeddings.length = chunks.length`);
the batch size it uses per request is 5 for the local-runner (ollama)
provider and 10 for the hosted (openai) provider. -/
theorem claim_C7_order_preserving_complete (settings : AISettings) (g : String → List ℝ)
    (bc bc' : BillContent)
    (hrun : createEmbeddings settings (fun l => .ok (l.map g)) bc = .ok bc') :
    bc'.chunks = bc.chunks ∧
    bc'.embeddings = bc.chunks.map (fun c => g c.text) ∧
    bc'.embeddings.length = bc'.chunks.length ∧
    (settings.embeddingProvider = .ollama → batchSizeOf settings = 5) ∧
    (settings.embeddingProvider = .openai → batchSizeOf settings = 10) := by
  unfold createEmbeddings at hrun
  split at hrun
  · exact absurd hrun (by simp)
  · dsimp only at hrun
    rw [embedBatches_map g (batchSizeOf settings)
      (by unfold batchSizeOf; split <;> omega)] at hrun
    have h' := Except.ok.inj hrun
    subst h'
    refine ⟨rfl, ?_, ?_, ?_, ?_⟩
    · simp [List.map_map, Function.comp]
    · simp [List.map_map]
    · intro hp; simp [batchSizeOf, hp]
    · intro hp; simp [batchSizeOf, hp]

/-- Witness for C7: a one-chunk bill embedded through an elementwise test
double returning the empty vector. -/
theorem claim_C7_witness :
    (⟨"b", "t", [⟨"chunk-0", "hello", 0, 1, none, none⟩], [[]], 0⟩ : BillContent).chunks =
        (⟨"b", "t", [⟨"chunk-0", "hello", 0, 1, none, none⟩], [], 0⟩ : BillContent).chunks ∧
    (⟨"b", "t", [⟨"chunk-0", "hello", 0, 1, none, none⟩], [[]], 0⟩ : BillContent).embeddings =
        (⟨"b", "t", [⟨"chunk-0", "hello", 0, 1, none, none⟩], [], 0⟩ : BillContent).chunks.map
          (fun _ => ([] : List ℝ)) ∧
    (⟨"b", "t", [⟨"chunk-0", "hello", 0, 1, none, none⟩], [[]],
          0⟩ : BillContent).embeddings.length =
        (⟨"b", "t", [⟨"chunk-0", "hello", 0, 1, none, none⟩], [[]],
          0⟩ : BillContent).chunks.length ∧
    ((⟨.ollama, ⟨"", "", ""⟩, ⟨"http://localhost:11434", "llama3"⟩, .ollama,
        "nomic-embed-text", 118, true⟩ : AISettings).embeddingProvider = .ollama →
      batchSizeOf ⟨.ollama, ⟨"", "", ""⟩, ⟨"http://localhost:11434", "llama3"⟩, .ollama,
        "nomic-embed-text", 118, true⟩= 5) ∧
    ((⟨.ollama, ⟨"", "", ""⟩, ⟨"http://localhost:11434", "llama3"⟩, .ollama,
        "nomic-embed-text", 118, true⟩ : AISettings).embeddingProvider = .openai →
      batchSizeOf ⟨.ollama, ⟨"", "", ""⟩, ⟨"http://localhost:11434", "llama3"⟩, .ollama,
        "nomic-embed-text", 118, true⟩ = 10) :=
  claim_C7_order_preserving_complete _ (fun _ => ([] : List ℝ)) _ _
    (by
      unfold createEmbeddings
      rw [if_neg (by decide)]
      dsimp only
      rw [embedBatches_map (fun _ => ([] : List ℝ)) _ (by decide)]
      rfl)

/-- A pattern found in `l2` is found in `l1 ++ l2`. -/
theorem containsAt_append_right (pat l2 : List Char) (h : containsAt pat l2 = true) :
    ∀ l1, containsAt pat (l1 ++ l2) = true := by
  intro l1
  induction l1 with
  | nil => simpa using h
  | cons c cs ih =>
    rw [List.cons_append, containsAt]
    simp [ih]

theorem includesStr_append_right (a b pat : String) (h : includesStr b pat = true) :
    includesStr (a ++ b) pat = true := by
  unfold includesStr at *
  rw [String.data_append]
  exact containsAt_append_right pat.data b.data h a.data

/-- Every message `getModel()` can throw for a missing credential mentions
the API key. -/
theorem missingCredential_api_key (settings : AISettings) (msg : String)
    (h : missingCredential settings = some msg) : includesStr msg "API key" = true := by
  unfold missingCredential at h
  split at h <;> (try split at h) <;> simp_all <;> subst h <;> decide

/-- Claim C8: `generateResponse` converts every failure into a returned
string rather than an exception.  A missing credential produces the
configuration hint (and the result does not depend on the model adapter, so
no network call can influence it); when the model invocation throws an
`Error`, a connectivity message (`ECONNREFUSED`/`network`) produces the
connectivity hint, and any other `Error` message is returned inside the
`Error: ...` string. -/
theorem claim_C8_failures_become_strings (settings : AISettings)
    (invokeModel : String → Except JsThrown String) (userMessage : String)
    (billContext : Option String) (relevantChunks : Option (List SearchResult))
    (e : String) (hfail : ∀ p, invokeModel p = .error (.jsError e)) :
    (∀ msg, missingCredential settings = some msg →
      generateResponse settings invokeModel userMessage billContext relevantChunks =
        "Error: " ++ msg ++ ". Please check your API key in settings." ∧
      includesStr
        (generateResponse settings invokeModel userMessage billContext relevantChunks)
        "check your API key" = true ∧
      ∀ invokeModel2 : String → Except JsThrown String,
        generateResponse settings invokeModel2 userMessage billContext relevantChunks =
          generateResponse settings invokeModel userMessage billContext relevantChunks) ∧
    (missingCredential settings = none →
      (includesStr e "API key" = false →
        (includesStr e "ECONNREFUSED" = true ∨ includesStr e "network" = true) →
        generateResponse settings invokeModel userMessage billContext relevantChunks =
          "Error: Unable to connect to the AI service. Please check your connection and try again.") ∧
      (includesStr e "API key" = false → includesStr e "ECONNREFUSED" = false →
        includesStr e "network" = false →
        generateResponse settings invokeModel userMessage billContext relevantChunks =
          "Error: " ++ e)) := by
  constructor
  · intro msg hmc
    have hkey := missingCredential_api_key settings msg hmc
    have hres : generateResponse settings invokeModel userMessage billContext relevantChunks =
        "Error: " ++ msg ++ ". Please check your API key in settings." := by
      unfold generateResponse
      rw [hmc]
      dsimp only
      simp only [catchHandler]
      rw [if_pos hkey]
    refine ⟨hres, ?_, ?_⟩
    · rw [hres]
      rw [show ("Error: " ++ msg ++ ". Please check your API key in settings." : String)
          = ("Error: " ++ msg) ++ ". Please check your API key in settings." from by
        simp [String.append_assoc]]
      exact includesStr_append_right _ _ _ (by decide)
    · intro invokeModel2
      rw [hres]
      unfold generateResponse
      rw [hmc]
      dsimp only
      simp only [catchHandler]
      rw [if_pos hkey]
  · intro hmc
    constructor
    · intro hak hconn
      unfold generateResponse
      rw [hmc, hfail]
      dsimp only
      simp only [catchHandler]
      rw [if_neg (by simp [hak]), if_pos (by simp [Bool.or_eq_true]; tauto)]
    · intro hak hec hnw
      unfold generateResponse
      rw [hmc, hfail]
      dsimp only
      simp only [catchHandler]
      rw [if_neg (by simp [hak]), if_neg (by simp [hec, hnw])]

/-- Witness for C8: an OpenAI selection with no API key yields the
configuration hint. -/
theorem claim_C8_witness :
    generateResponse
        ⟨.openai, ⟨"", "", ""⟩, ⟨"http://localhost:11434", "llama3"⟩, .openai,
          "nomic-embed-text", 118, true⟩
        (fun _ => .error (.jsError "boom")) "hi" none none =
      "Error: OpenAI API key is required. Please check your API key in settings." :=
  ((claim_C8_failures_become_strings
      ⟨.openai, ⟨"", "", ""⟩, ⟨"http://localhost:11434", "llama3"⟩, .openai,
        "nomic-embed-text", 118, true⟩
      (fun _ => .error (.jsError "boom")) "hi" none none "boom" (fun _ => rfl)).1
    "OpenAI API key is required" rfl).1

/-- Claim C10 counterexample: the claim's closing clause — "the verbatim
path is taken only when both billContext and relevantChunks are absent" —
fails: a supplied but empty `billContext` string is falsy in
`billContext || relevantChunks`, so with `relevantChunks` absent the user
message is still sent verbatim even though `billContext` was supplied. -/
theorem claim_C10_counterexample :
    promptFor (some "") none "hello" = "hello" ∧ (some "" : Option String) ≠ none :=
  ⟨rfl, by simp⟩

/-- Claim C10 (amended): with no `billContext` and `relevantChunks`
supplied as the empty sequence, the message is not sent verbatim: the
prompt is the full composite template with an empty context block around
the user question (and an echoing adapter shows that exact prompt reaching
the model call).  The verbatim path is taken exactly when `relevantChunks`
is absent and `billContext` is absent or the empty string. -/
theorem claim_C10_empty_chunks_not_verbatim (userMessage : String) :
    promptFor none (some []) userMessage =
      "You are an AI assistant helping users understand US legislation. You have access to both bill metadata and the full text content.\n\n"
        ++ "" ++ "\n\nUser question: " ++ userMessage
        ++ "\n\nPlease provide a helpful, accurate response about this bill. Use the provided bill text sections to give specific, detailed answers. When referencing information from the bill, quote the relevant parts and explain them clearly. Focus on answering the user's specific question with evidence from the actual bill text." ∧
    (∀ settings : AISettings, missingCredential settings = none →
      generateResponse settings (fun p => .ok p) userMessage none (some []) =
        promptFor none (some []) userMessage) ∧
    ∀ (bc : Option String) (rc : Option (List SearchResult)),
      promptFor bc rc userMessage = userMessage ↔
        ((bc = none ∨ bc = some "") ∧ rc = none) := by
  refine ⟨rfl, ?_, ?_⟩
  · intro settings hmc
    unfold generateResponse
    rw [hmc]
  · intro bc rc
    rcases rc with _ | rcl
    · rcases bc with _ | s
      · simp [promptFor]
      · by_cases hs : s = ""
        · subst hs; simp [promptFor]
        · have hb : (s != "") = true := by simp [hs]
          constructor
          · intro heq
            exfalso
            rw [promptFor.eq_def] at heq
            dsimp only at heq
            rw [hb] at heq
            simp only [Bool.true_or, if_true, List.append_nil, joinSep] at heq
            have hl := congrArg String.length heq
            simp only [String.length_append] at hl
            have h1 : 0 < ("\n\nUser question: " : String).length := by decide
            omega
          · rintro ⟨h1, -⟩
            rcases h1 with h1 | h1
            · exact absurd h1 (by simp)
            · exact absurd (Option.some.inj h1) hs
    · constructor
      · intro heq
        exfalso
        rw [promptFor.eq_def] at heq
        dsimp only at heq
        simp only [Option.isSome_some, Bool.or_true, if_true] at heq
        have hl := congrArg String.length heq
        simp only [String.length_append] at hl
        have h1 : 0 < ("\n\nUser question: " : String).length := by decide
        omega
      · rintro ⟨-, h2⟩
        exact absurd h2 (by simp)

/-- For equal-length vectors `cosineSimilarity` never throws. -/
theorem cosineSimilarity_isOk (a b : List ℝ) (h : a.length = b.length) :
    ∃ r, cosineSimilarity a b = .ok r := by
  unfold cosineSimilarity
  rw [if_neg (fun hne => hne h)]
  dsimp only
  by_cases hz : (a.map fun x => x * x).sum = 0 ∨ (b.map fun x => x * x).sum = 0
  · rw [if_pos hz]; exact ⟨0, rfl⟩
  · rw [if_neg hz]; exact ⟨_, rfl⟩

theorem mapExcept_ok (f : α → Except ε β) (l : List α) (h : ∀ a ∈ l, ∃ b, f a = .ok b) :
    ∃ r, mapExcept f l = .ok r ∧ r.length = l.length := by
  induction l with
  | nil => exact ⟨[], rfl, rfl⟩
  | cons a as ih =>
    obtain ⟨b, hb⟩ := h a (List.mem_cons_self a as)
    obtain ⟨r, hr, hlen⟩ := ih fun x hx => h x (List.mem_cons_of_mem a hx)
    exact ⟨b :: r, by rw [mapExcept, hb, hr], by simp [hlen]⟩

instance : IsTotal SearchResult simDesc :=
  ⟨fun a b => le_total b.similarity a.similarity⟩

instance : IsTrans SearchResult simDesc :=
  ⟨fun _ _ _ hab hbc => le_trans hbc hab⟩

/-- Inserting an element with the tie value `v` into a list places it before
every element of the same similarity, so the `v`-tie class gains the new
element at its front. -/
theorem filter_orderedInsert_eq (x : SearchResult) (v : ℝ) (hx : x.similarity = v) :
    ∀ l : List SearchResult,
      (l.orderedInsert simDesc x).filter (fun y => decide (y.similarity = v)) =
        x :: l.filter (fun y => decide (y.similarity = v))
  | [] => by simp [List.orderedInsert, List.filter_cons, hx]
  | y :: l => by
    rw [List.orderedInsert]
    by_cases hr : simDesc x y
    · rw [if_pos hr]
      simp [List.filter_cons, hx]
    · rw [if_neg hr]
      have hy : ¬y.similarity = v := fun hyv => hr (le_of_eq (hyv.trans hx.symm))
      simp [List.filter_cons, hy, filter_orderedInsert_eq x v hx l]

theorem filter_orderedInsert_ne (x : SearchResult) (v : ℝ) (hx : ¬x.similarity = v) :
    ∀ l : List SearchResult,
      (l.orderedInsert simDesc x).filter (fun y => decide (y.similarity = v)) =
        l.filter (fun y => decide (y.similarity = v))
  | [] => by simp [List.orderedInsert, List.filter_cons, hx]
  | y :: l => by
    rw [List.orderedInsert]
    by_cases hr : simDesc x y
    · rw [if_pos hr]
      simp [List.filter_cons, hx]
    · rw [if_neg hr]
      simp [List.filter_cons, filter_orderedInsert_ne x v hx l]

/-- Stability of the modelled sort: for every similarity value, the sorted
list restricted to that value is the input list restricted to that value, in
the original order. -/
theorem insertionSort_filter_sim (v : ℝ) :
    ∀ l : List SearchResult,
      (l.insertionSort simDesc).filter (fun y => decide (y.similarity = v)) =
        l.filter (fun y => decide (y.similarity = v))
  | [] => rfl
  | x :: l => by
    rw [List.insertionSort]
    by_cases hx : x.similarity = v
    · rw [filter_orderedInsert_eq x v hx (l.insertionSort simDesc),
        insertionSort_filter_sim v l]
      simp [List.filter_cons, hx]
    · rw [filter_orderedInsert_ne x v hx (l.insertionSort simDesc),
        insertionSort_filter_sim v l]
      simp [List.filter_cons, hx]

/-- Claim C6: on a `BillContent` with a non-empty embedding sequence
parallel to its chunks, `searchSimilarChunks` succeeds and returns results
sorted by descending similarity; ties preserve original chunk order (for
every similarity value, the returned results with that value are a prefix
of the original-order candidate list restricted to that value); and the
number of results is exactly `min topK (number of chunks)`. -/
theorem claim_C6_search_sorted_stable_topk (queryEmbedding : List ℝ)
    (content : BillContent) (topK : Nat) (hne : content.embeddings ≠ [])
    (hlen : content.embeddings.length = content.chunks.length)
    (hdim : ∀ e ∈ content.embeddings, e.length = queryEmbedding.length) :
    ∃ sims results,
      simList queryEmbedding content = .ok sims ∧
      searchSimilarChunks queryEmbedding content topK = .ok results ∧
      results.length = min topK content.chunks.length ∧
      results.Pairwise simDesc ∧
      ∀ v : ℝ, ∃ t, results.filter (fun y => decide (y.similarity = v)) ++ t =
        sims.filter (fun y => decide (y.similarity = v)) := by
  have hok : ∀ p ∈ content.embeddings.enum, ∃ b,
      ((cosineSimilarity queryEmbedding p.2).map
        fun s => (⟨content.chunks.getD p.1 undefinedChunk, s⟩ : SearchResult)) = .ok b := by
    intro p hp
    have hmem : p.2 ∈ content.embeddings := by
      have hg := List.mem_enum_iff_getElem?.mp hp
      exact List.getElem?_mem hg
    obtain ⟨r, hr⟩ := cosineSimilarity_isOk queryEmbedding p.2 ((hdim p.2 hmem).symm)
    exact ⟨_, by rw [hr]; rfl⟩
  obtain ⟨sims, hsims, hsimslen⟩ := mapExcept_ok _ _ hok
  have hsims' : simList queryEmbedding content = .ok sims := by
    unfold simList
    exact hsims
  have hlenne : ¬content.embeddings.length = 0 := by
    simpa [List.length_eq_zero] using hne
  have hsearch : searchSimilarChunks queryEmbedding content topK =
      .ok ((sortSearchResults sims).take topK) := by
    unfold searchSimilarChunks
    rw [if_neg hlenne, hsims']
  refine ⟨sims, (sortSearchResults sims).take topK, hsims', hsearch, ?_, ?_, ?_⟩
  · rw [List.length_take]
    unfold sortSearchResults
    rw [List.length_insertionSort, hsimslen, List.enum_length, hlen]
  · exact List.Pairwise.sublist (List.take_sublist _ _)
      (List.sorted_insertionSort simDesc sims)
  · intro v
    refine ⟨((sortSearchResults sims).drop topK).filter (fun y => decide (y.similarity = v)), ?_⟩
    rw [← List.filter_append, List.take_append_drop]
    unfold sortSearchResults
    exact insertionSort_filter_sim v sims

/-- Witness for C6: two chunks with zero-vector embeddings, `topK = 3`. -/
theorem claim_C6_witness :
    ∃ sims results,
      simList [(0 : ℝ)]
          ⟨"119-HR-1", "x y", [⟨"chunk-0", "x", 0, 1, none, none⟩,
            ⟨"chunk-1", "y", 1, 2, none, none⟩], [[0], [0]], 0⟩ = .ok sims ∧
      searchSimilarChunks [(0 : ℝ)]
          ⟨"119-HR-1", "x y", [⟨"chunk-0", "x", 0, 1, none, none⟩,
            ⟨"chunk-1", "y", 1, 2, none, none⟩], [[0], [0]], 0⟩ 3 = .ok results ∧
      results.length = min 3
        (⟨"119-HR-1", "x y", [⟨"chunk-0", "x", 0, 1, none, none⟩,
          ⟨"chunk-1", "y", 1, 2, none, none⟩], [[0], [0]],
          0⟩ : BillContent).chunks.length ∧
      results.Pairwise simDesc ∧
      ∀ v : ℝ, ∃ t, results.filter (fun y => decide (y.similarity = v)) ++ t =
        sims.filter (fun y => decide (y.similarity = v)) :=
  claim_C6_search_sorted_stable_topk [(0 : ℝ)]
    ⟨"119-HR-1", "x y", [⟨"chunk-0", "x", 0, 1, none, none⟩,
      ⟨"chunk-1", "y", 1, 2, none, none⟩], [[0], [0]], 0⟩ 3
    (by simp) rfl
    (by
      intro e he
      rcases List.mem_cons.mp he with rfl | he2
      · rfl
      · rcases List.mem_singleton.mp he2 with rfl
        rfl)

end ChatGov
